import Mathlib

/-!
Verification development for the EDGAR 10-K/20-F HTML downloader
(`edgarhtml5yearHTML.py`).  The Python source is shallowly embedded:
strings are modelled as `List Char` (code points, ASCII case semantics),
network results are passed in explicitly, and each definition mirrors one
Python function, named after it.
-/

namespace EdgarSpec

/-! ### Python string primitives (ASCII semantics) -/

/-- Python `str.lower` on one character (ASCII range). -/
def asciiLower (c : Char) : Char :=
  if 'A' ≤ c ∧ c ≤ 'Z' then Char.ofNat (c.toNat + 32) else c

/-- Python `str.upper` on one character (ASCII range). -/
def asciiUpper (c : Char) : Char :=
  if 'a' ≤ c ∧ c ≤ 'z' then Char.ofNat (c.toNat - 32) else c

/-- Python `str.lower` on a whole string. -/
def lowerL (l : List Char) : List Char := l.map asciiLower

/-- Python `str.upper` on a whole string. -/
def upperL (l : List Char) : List Char := l.map asciiUpper

/-- Python `str.lower` wrapped for `String`. -/
def lowerS (s : String) : String := ⟨lowerL s.data⟩

/-- Python substring test `pat in s`. -/
def containsSub (pat : List Char) : List Char → Bool
  | [] => pat.isEmpty
  | c :: rest => pat.isPrefixOf (c :: rest) || containsSub pat rest

/-- Python `s.endswith(pat)` for a single suffix. -/
def endsSub (pat l : List Char) : Bool := List.isSuffixOf pat l

/-- Python whitespace class `\s` (ASCII members). -/
def isPySpace (c : Char) : Bool :=
  c == ' ' || c == '\t' || c == '\n' || c == '\r' || c == '\x0b' || c == '\x0c'

/-- Python regex word character `\w` (ASCII members), used for `\b`. -/
def wordChar (c : Char) : Bool :=
  ('a' ≤ c && c ≤ 'z') || ('A' ≤ c && c ≤ 'Z') || ('0' ≤ c && c ≤ '9') || c == '_'

/-! ### The exhibit-name regex `\bex[-_ ]?\d` (source line 174) -/

/-- Does `\A ex[-_ ]?\d` match at the head of the list? -/
def exAt : List Char → Bool
  | 'e' :: 'x' :: rest =>
    match rest with
    | [] => false
    | c :: rest2 =>
      c.isDigit || ((c == '-' || c == '_' || c == ' ') &&
        (match rest2 with | [] => false | d :: _ => d.isDigit))
  | _ => false

/-- Scan of `re.search(r"\bex[-_ ]?\d", n)`: try every position left to
right, with the word boundary decided from the previous character. -/
def exScanAux : Option Char → List Char → Bool
  | _, [] => false
  | prev, c :: rest =>
    ((match prev with | none => true | some p => !wordChar p) && exAt (c :: rest))
      || exScanAux (some c) rest

/-- `re.search(r"\bex[-_ ]?\d", n) is not None` for a whole string `n`. -/
def exhibitPattern (n : List Char) : Bool := exScanAux none n

/-! ### The directory-listing scoring function
(`score`, source lines 167-176, nested in `pick_html_from_index_json`). -/

/-- Translation of `score(name)`: sequential accumulation over the
lowercased filename exactly as in the source. -/
def score (name : List Char) : Int :=
  let n := lowerL name
  let s : Int := 0
  let s := if containsSub "10-k".data n || containsSub "10k".data n then s + 10 else s
  let s := if containsSub "20-f".data n || containsSub "20f".data n then s + 9 else s
  let s := if containsSub "form".data n then s + 2 else s
  let s := if n = "index.html".data then s - 10 else s
  let s := if exhibitPattern n || containsSub "exhibit".data n then s - 5 else s
  s + (min (n.length / 10) 3 : Nat)

/-- Reference definition following the spec's words (§4.3 tier 2): the
score is the *sum* of six independent components of the lowercased
filename; the exhibit-numbering pattern is the word-boundary-anchored
"`ex`, optional separator, digit" pattern named by the spec. -/
def specScore (name : List Char) : Int :=
  let n := lowerL name
  (if containsSub "10-k".data n || containsSub "10k".data n then (10 : Int) else 0)
  + (if containsSub "20-f".data n || containsSub "20f".data n then (9 : Int) else 0)
  + (if containsSub "form".data n then (2 : Int) else 0)
  + (if n = "index.html".data then (-10 : Int) else 0)
  + (if exhibitPattern n || containsSub "exhibit".data n then (-5 : Int) else 0)
  + (min (n.length / 10) 3 : Nat)

/-- C3: for every filename, the directory-listing score equals the sum of
the spec's reference components, evaluated case-insensitively: +10 for a
"10-k"/"10k" token, +9 for "20-f"/"20f", +2 for "form", −10 when the
lowercased name is exactly "index.html", −5 for the exhibit pattern or
"exhibit", plus the length bonus `length/10` capped at 3. -/
theorem claim_C3_score_is_component_sum (name : List Char) :
    score name = specScore name := by
  unfold score specScore
  dsimp only
  split <;> split <;> split <;> split <;> split <;> omega

/-! ### URL construction (the f-string prefix shared by all three tiers) -/

/-- `https://www.sec.gov/Archives/edgar/data/{cik_no_zeros}/{accession_nodashes}/` -/
def archPrefix (cik acc : String) : String :=
  "https://www.sec.gov/Archives/edgar/data/" ++ cik ++ "/" ++ acc ++ "/"

/-- `name.lower().endswith((".htm", ".html"))`. -/
def htmlNameCI (n : List Char) : Bool :=
  endsSub ".htm".data (lowerL n) || endsSub ".html".data (lowerL n)

/-- Token test used by tier 1: `any(k in p for k in ("10-k","10k","20-f","20f"))`
on the lowercased name. -/
def annualTokenCI (n : List Char) : Bool :=
  containsSub "10-k".data (lowerL n) || containsSub "10k".data (lowerL n)
  || containsSub "20-f".data (lowerL n) || containsSub "20f".data (lowerL n)

/-! ### Tier 2: `pick_html_from_index_json` (source lines 160-179).
The directory listing is passed in as the list of `name` fields of
`index.json`'s `directory.item` array (`""` for a missing name, as in
`it.get("name","")`). -/

/-- Python `max(htmls, key=score)`: fold keeping the first element that
attains the maximal score (`>` comparison with the running best). -/
def maxByScore (h : String) (t : List String) : String :=
  t.foldl (fun best x => if score best.data < score x.data then x else best) h

/-- The filename selected by `pick_html_from_index_json` before URL
construction: filter to HTML names, then `max(htmls, key=score)`. -/
def pick_html_name (items : List String) : Option String :=
  match items.filter (fun nm => htmlNameCI nm.data) with
  | [] => none
  | h :: t => some (maxByScore h t)

/-- Translation of `pick_html_from_index_json`. -/
def pick_html_from_index_json (cik acc : String) (items : List String) : Option String :=
  (pick_html_name items).map (fun best => archPrefix cik acc ++ best)

theorem maxByScore_spec (h : String) (t : List String) :
    (maxByScore h t = h ∨ maxByScore h t ∈ t)
    ∧ score h.data ≤ score (maxByScore h t).data
    ∧ ∀ y ∈ t, score y.data ≤ score (maxByScore h t).data := by
  induction t generalizing h with
  | nil => simp [maxByScore]
  | cons x xs ih =>
    have hstep : maxByScore h (x :: xs)
        = maxByScore (if score h.data < score x.data then x else h) xs := rfl
    by_cases hc : score h.data < score x.data
    · rw [hstep, if_pos hc]
      rcases ih x with ⟨hmem, hle, hall⟩
      refine ⟨?_, ?_, ?_⟩
      · rcases hmem with h1 | h1
        · exact Or.inr (by simp [h1])
        · exact Or.inr (by simp [h1])
      · exact le_trans (le_of_lt hc) hle
      · intro y hy
        rcases List.mem_cons.mp hy with rfl | hy
        · exact hle
        · exact hall y hy
    · rw [hstep, if_neg hc]
      rcases ih h with ⟨hmem, hle, hall⟩
      refine ⟨?_, hle, ?_⟩
      · rcases hmem with h1 | h1
        · exact Or.inl h1
        · exact Or.inr (by simp [h1])
      · intro y hy
        rcases List.mem_cons.mp hy with rfl | hy
        · exact le_trans (le_of_not_lt hc) hle
        · exact hall y hy

theorem lowerS_eq_iff (s t : String) : lowerS s = t ↔ lowerL s.data = t.data := by
  constructor
  · intro h
    exact congrArg String.data h
  · intro h
    cases t
    exact congrArg String.mk h

/-- Any name whose lowercase form is exactly `index.html` scores −9
(−10 penalty, +1 length bonus). -/
theorem score_of_index (nm : List Char) (h : lowerL nm = "index.html".data) :
    score nm = -9 := by
  unfold score
  dsimp only
  rw [h]
  decide

/-- A token-carrying HTML name other than `index.html` scores at least 4. -/
theorem score_token_lower_bound (nm : List Char)
    (htok : annualTokenCI nm = true)
    (hidx : lowerL nm ≠ "index.html".data) :
    4 ≤ score nm := by
  have h12 : (containsSub "10-k".data (lowerL nm) || containsSub "10k".data (lowerL nm)) = true
      ∨ (containsSub "20-f".data (lowerL nm) || containsSub "20f".data (lowerL nm)) = true := by
    simp only [annualTokenCI, Bool.or_eq_true] at htok ⊢
    tauto
  unfold score
  dsimp only
  rw [if_neg hidx]
  rcases h12 with h | h <;>
    rw [h] <;> simp only [if_true] <;> split <;> split <;> split <;> omega

/-- C2: in a directory listing holding at least one HTML filename that
carries a filing-type token ("10-k", "10k", "20-f" or "20f",
case-insensitively) and is not `index.html`, every such token-carrying
name scores strictly above any `index.html` entry, and
`pick_html_from_index_json` never selects a name whose lowercase form is
`index.html`. -/
theorem claim_C2_listing_never_picks_index (items : List String) (f g : String)
    (hf_mem : f ∈ items) (hf_html : htmlNameCI f.data = true)
    (hf_tok : annualTokenCI f.data = true) (hf_idx : lowerS f ≠ "index.html")
    (hg_mem : g ∈ items) (hg_idx : lowerS g = "index.html") :
    score g.data < score f.data
    ∧ ∀ nm, pick_html_name items = some nm → lowerS nm ≠ "index.html" := by
  have hf_idx' : lowerL f.data ≠ "index.html".data := by
    intro h
    exact hf_idx ((lowerS_eq_iff f "index.html").mpr h)
  have hg_idx' : lowerL g.data = "index.html".data := (lowerS_eq_iff g "index.html").mp hg_idx
  have hfl : 4 ≤ score f.data := score_token_lower_bound f.data hf_tok hf_idx'
  have hgl : score g.data = -9 := score_of_index g.data hg_idx'
  constructor
  · omega
  · intro nm hpick hnm_idx
    have hnm_idx' : lowerL nm.data = "index.html".data := (lowerS_eq_iff nm "index.html").mp hnm_idx
    have hnml : score nm.data = -9 := score_of_index nm.data hnm_idx'
    unfold pick_html_name at hpick
    rcases hl : items.filter (fun nm => htmlNameCI nm.data) with _ | ⟨h, t⟩
    · rw [hl] at hpick
      exact Option.noConfusion hpick
    · rw [hl] at hpick
      have hnm : nm = maxByScore h t := (Option.some.injEq _ _).mp hpick.symm
      have hfin : f ∈ h :: t := by
        rw [← hl]
        exact List.mem_filter.mpr ⟨hf_mem, hf_html⟩
      rcases maxByScore_spec h t with ⟨_, hle_h, hall⟩
      have hle_f : score f.data ≤ score (maxByScore h t).data := by
        rcases List.mem_cons.mp hfin with heq | hft
        · rw [heq]
          exact hle_h
        · exact hall f hft
      rw [← hnm] at hle_f
      omega

/-- C2 witness: the spec's own synthetic listing. -/
theorem claim_C2_witness :
    score "index.html".data < score "form10-k_2023.htm".data
    ∧ ∀ nm, pick_html_name ["index.html", "form10-k_2023.htm", "ex-10_1.htm"] = some nm →
        lowerS nm ≠ "index.html" :=
  claim_C2_listing_never_picks_index
    ["index.html", "form10-k_2023.htm", "ex-10_1.htm"]
    "form10-k_2023.htm" "index.html"
    (by decide) (by decide) (by decide) (by decide) (by decide) (by decide)

/-! ### Tier 3: the legacy-bundle (SGML) scan
(`parse_submission_txt_for_annual_html`, source lines 181-198, and its
duplicate `_extract_annual_html_from_sgml`, source lines 287-299). -/

/-- Case-insensitive literal prefix test (regex `IGNORECASE`). -/
def isPrefixCI : List Char → List Char → Bool
  | [], _ => true
  | _ :: _, [] => false
  | p :: ps, c :: cs => (asciiLower p == asciiLower c) && isPrefixCI ps cs

/-- First case-insensitive occurrence of `pat`: the part before it and
the part after it. -/
def splitCI (pat : List Char) : List Char → Option (List Char × List Char)
  | [] => if pat.isEmpty then some ([], []) else none
  | c :: rest =>
    if isPrefixCI pat (c :: rest) then some ([], (c :: rest).drop pat.length)
    else
      match splitCI pat rest with
      | some (b, a) => some (c :: b, a)
      | none => none

theorem splitCI_after_length (pat : List Char) (hpat : pat ≠ []) :
    ∀ l b a, splitCI pat l = some (b, a) → a.length < l.length := by
  intro l
  induction l with
  | nil =>
    intro b a h
    have : pat.isEmpty = false := by
      cases pat
      · exact absurd rfl hpat
      · rfl
    simp [splitCI, this] at h
  | cons c rest ih =>
    intro b a h
    have hplen : 1 ≤ pat.length := by
      cases pat
      · exact absurd rfl hpat
      · simp
    by_cases hp : isPrefixCI pat (c :: rest) = true
    · rw [splitCI, if_pos hp] at h
      have ha : a = (c :: rest).drop pat.length := by
        injection h with h'
        injection h' with h1 h2
        exact h2.symm
      rw [ha, List.length_drop]
      simp only [List.length_cons]
      omega
    · rw [splitCI, if_neg hp] at h
      cases hsp : splitCI pat rest with
      | none => rw [hsp] at h; exact absurd h (by simp)
      | some p =>
        rcases p with ⟨b', a'⟩
        rw [hsp] at h
        have ha : a = a' := by
          injection h with h'
          injection h' with h1 h2
          exact h2.symm
        have := ih b' a' hsp
        rw [ha]
        simp only [List.length_cons]
        omega

/-- `re.findall(r"<DOCUMENT>(.*?)</DOCUMENT>", txt, DOTALL | IGNORECASE)`,
fuel-indexed so that the recursion is structural: each iteration finds the
next `<DOCUMENT>`, then the closing `</DOCUMENT>` (non-greedy body), and
resumes after it.  One unit of fuel per iteration; since every iteration
strictly shortens the remaining text, `fuel = length` is enough
(`docBlocksF_stable` below). -/
def docBlocksF : Nat → List Char → List (List Char)
  | 0, _ => []
  | fuel + 1, s =>
    match splitCI "<DOCUMENT>".data s with
    | none => []
    | some (_, r1) =>
      match splitCI "</DOCUMENT>".data r1 with
      | none => []
      | some (blk, r2) => blk :: docBlocksF fuel r2

/-- The `re.findall` of the two bundle scanners. -/
def docBlocks (s : List Char) : List (List Char) := docBlocksF s.length s

/-- The fuel bound in `docBlocks` is sufficient: any two fuels at least
the text length give the same block list. -/
theorem docBlocksF_stable :
    ∀ fuel1 fuel2 s, s.length ≤ fuel1 → s.length ≤ fuel2 →
      docBlocksF fuel1 s = docBlocksF fuel2 s := by
  intro fuel1
  induction fuel1 with
  | zero =>
    intro fuel2 s h1 h2
    have hs : s = [] := List.length_eq_zero.mp (Nat.le_zero.mp h1)
    subst hs
    cases fuel2 with
    | zero => rfl
    | succ f => rfl
  | succ f1 ih =>
    intro fuel2 s h1 h2
    cases fuel2 with
    | zero =>
      have hs : s = [] := List.length_eq_zero.mp (Nat.le_zero.mp h2)
      subst hs
      rfl
    | succ f2 =>
      show (match splitCI "<DOCUMENT>".data s with
            | none => []
            | some (_, r1) =>
              match splitCI "</DOCUMENT>".data r1 with
              | none => []
              | some (blk, r2) => blk :: docBlocksF f1 r2) =
           (match splitCI "<DOCUMENT>".data s with
            | none => []
            | some (_, r1) =>
              match splitCI "</DOCUMENT>".data r1 with
              | none => []
              | some (blk, r2) => blk :: docBlocksF f2 r2)
      cases hs1 : splitCI "<DOCUMENT>".data s with
      | none => rfl
      | some p1 =>
        rcases p1 with ⟨b1, r1⟩
        dsimp only
        cases hs2 : splitCI "</DOCUMENT>".data r1 with
        | none => rfl
        | some p2 =>
          rcases p2 with ⟨blk, r2⟩
          have hl1 : r1.length < s.length := splitCI_after_length _ (by decide) s _ _ hs1
          have hl2 : r2.length < r1.length := splitCI_after_length _ (by decide) r1 _ _ hs2
          have := ih f2 r2 (by omega) (by omega)
          simp [this]

/-- `re.search(tag + r"\s*([^\s<]+)", block, IGNORECASE)` and its capture
group: positions are tried left to right; at a case-insensitive occurrence
of the literal `tag`, the maximal nonempty run of non-space non-`<`
characters after optional whitespace is captured, otherwise the scan
continues. -/
def tagCapture (tag : List Char) : List Char → Option (List Char)
  | [] => none
  | c :: rest =>
    if isPrefixCI tag (c :: rest) then
      let after := (c :: rest).drop tag.length
      let tok := (after.dropWhile isPySpace).takeWhile (fun ch => !isPySpace ch && ch != '<')
      if tok.isEmpty then tagCapture tag rest else some tok
    else tagCapture tag rest

/-- The accepted `<TYPE>` labels: `{"10-K", "10-K/A", "20-F", "20-F/A"}`. -/
def annualTypes : List (List Char) :=
  ["10-K".data, "10-K/A".data, "20-F".data, "20-F/A".data]

/-- One `<DOCUMENT>` block: the `<TYPE>`/`<FILENAME>` captures and the
acceptance test (`ftype` uppercased and in the set, `fname` ending in an
HTML extension case-insensitively). -/
def blockAnnualName (block : List Char) : Option (List Char) :=
  match tagCapture "<TYPE>".data block, tagCapture "<FILENAME>".data block with
  | some ty, some fn =>
    if upperL ty ∈ annualTypes ∧ htmlNameCI fn = true then some fn else none
  | _, _ => none

/-- The scan loop of `_extract_annual_html_from_sgml` (source lines
289-299): first qualifying block's filename. -/
def scanBlocksName : List (List Char) → Option (List Char)
  | [] => none
  | block :: bs =>
    match tagCapture "<TYPE>".data block, tagCapture "<FILENAME>".data block with
    | some ty, some fn =>
      if upperL ty ∈ annualTypes ∧ htmlNameCI fn = true then some fn
      else scanBlocksName bs
    | _, _ => scanBlocksName bs

/-- Translation of `_extract_annual_html_from_sgml`. -/
def extract_annual_html_from_sgml (sgml_text : String) : Option String :=
  (scanBlocksName (docBlocks sgml_text.data)).map (fun fn => String.mk fn)

/-- The scan loop of `parse_submission_txt_for_annual_html` (source lines
189-198): first qualifying block's full archive URL. -/
def scanBlocksUrl (cik acc : String) : List (List Char) → Option String
  | [] => none
  | block :: bs =>
    match tagCapture "<TYPE>".data block, tagCapture "<FILENAME>".data block with
    | some ty, some fn =>
      if upperL ty ∈ annualTypes ∧ htmlNameCI fn = true then
        some (archPrefix cik acc ++ String.mk fn)
      else scanBlocksUrl cik acc bs
    | _, _ => scanBlocksUrl cik acc bs

/-- Translation of `parse_submission_txt_for_annual_html`; `txt` is the
`get_text` result for the master `.txt` URL (`none` = failed fetch; the
empty string is falsy in `if not txt`). -/
def parse_submission_txt_for_annual_html (cik acc : String) (txt : Option String) :
    Option String :=
  match txt with
  | none => none
  | some t => if t = "" then none else scanBlocksUrl cik acc (docBlocks t.data)

theorem scanBlocksName_eq_findSome (bs : List (List Char)) :
    scanBlocksName bs = bs.findSome? blockAnnualName := by
  induction bs with
  | nil => rfl
  | cons b bs ih =>
    rw [List.findSome?_cons]
    cases hty : tagCapture "<TYPE>".data b with
    | none => simp [scanBlocksName, blockAnnualName, hty, ih]
    | some ty =>
      cases hfn : tagCapture "<FILENAME>".data b with
      | none => simp [scanBlocksName, blockAnnualName, hty, hfn, ih]
      | some fn =>
        by_cases hcond : upperL ty ∈ annualTypes ∧ htmlNameCI fn = true
        · simp [scanBlocksName, blockAnnualName, hty, hfn, hcond]
        · simp [scanBlocksName, blockAnnualName, hty, hfn, hcond, ih]

theorem scanBlocksUrl_eq (cik acc : String) (bs : List (List Char)) :
    scanBlocksUrl cik acc bs
      = (scanBlocksName bs).map (fun fn => archPrefix cik acc ++ String.mk fn) := by
  induction bs with
  | nil => rfl
  | cons b bs ih =>
    cases hty : tagCapture "<TYPE>".data b with
    | none => simp [scanBlocksUrl, scanBlocksName, hty, ih]
    | some ty =>
      cases hfn : tagCapture "<FILENAME>".data b with
      | none => simp [scanBlocksUrl, scanBlocksName, hty, hfn, ih]
      | some fn =>
        by_cases hcond : upperL ty ∈ annualTypes ∧ htmlNameCI fn = true
        · simp [scanBlocksUrl, scanBlocksName, hty, hfn, hcond]
        · simp [scanBlocksUrl, scanBlocksName, hty, hfn, hcond, ih]

/-- C6: for every bundle text, the filename extracted during
bundle-to-HTML auto-recovery (`_extract_annual_html_from_sgml`) is
exactly what tier-3 parsing appends to the archive-folder prefix for the
same text: the two tag-scanning functions implement the same logic and
return no result exactly together. -/
theorem claim_C6_recovery_agrees_with_tier3 (cik acc t1 : String) :
    parse_submission_txt_for_annual_html cik acc (some t1)
      = (extract_annual_html_from_sgml t1).map (fun fn => archPrefix cik acc ++ fn)
    ∧ (parse_submission_txt_for_annual_html cik acc (some t1) = none
        ↔ extract_annual_html_from_sgml t1 = none) := by
  have hmain : parse_submission_txt_for_annual_html cik acc (some t1)
      = (extract_annual_html_from_sgml t1).map (fun fn => archPrefix cik acc ++ fn) := by
    by_cases ht : t1 = ""
    · subst ht
      rfl
    · show (if t1 = "" then none else scanBlocksUrl cik acc (docBlocks t1.data)) = _
      rw [if_neg ht, scanBlocksUrl_eq, extract_annual_html_from_sgml, Option.map_map]
      rfl
  refine ⟨hmain, ?_⟩
  rw [hmain]
  cases extract_annual_html_from_sgml t1 <;> simp

/-- The spec's synthetic legacy bundle: first block tagged `EX-10.1`,
second block tagged `10-K`, both `.htm` filenames. -/
def sampleBundle : String :=
  "<DOCUMENT>\n<TYPE>EX-10.1\n<FILENAME>exh101.htm\n</DOCUMENT>\n<DOCUMENT>\n<TYPE>10-K\n<FILENAME>main10k.htm\n</DOCUMENT>\n"

/-- C4: tier-3 parsing scans the `<DOCUMENT>` blocks sequentially and
returns the URL built from the first block whose `<TYPE>` is one of the
four accepted tags and whose `<FILENAME>` ends in an HTML extension; on
the two-block `EX-10.1` / `10-K` bundle it returns the `10-K` block's
filename, and it returns no URL when no block qualifies. -/
theorem claim_C4_tier3_first_qualifying_block :
    (∀ cik acc t1, parse_submission_txt_for_annual_html cik acc (some t1)
        = ((docBlocks t1.data).findSome? blockAnnualName).map
            (fun fn => archPrefix cik acc ++ String.mk fn))
    ∧ parse_submission_txt_for_annual_html "320193" "000032019324000123" (some sampleBundle)
        = some "https://www.sec.gov/Archives/edgar/data/320193/000032019324000123/main10k.htm"
    ∧ (∀ cik acc t1, (∀ b ∈ docBlocks t1.data, blockAnnualName b = none) →
        parse_submission_txt_for_annual_html cik acc (some t1) = none) := by
  have hgen : ∀ cik acc t1, parse_submission_txt_for_annual_html cik acc (some t1)
      = ((docBlocks t1.data).findSome? blockAnnualName).map
          (fun fn => archPrefix cik acc ++ String.mk fn) := by
    intro cik acc t1
    by_cases ht : t1 = ""
    · subst ht
      rfl
    · show (if t1 = "" then none else scanBlocksUrl cik acc (docBlocks t1.data)) = _
      rw [if_neg ht, scanBlocksUrl_eq, scanBlocksName_eq_findSome]
  refine ⟨hgen, ?_, ?_⟩
  · rw [hgen]
    decide
  · intro cik acc t1 hall
    rw [hgen]
    have : (docBlocks t1.data).findSome? blockAnnualName = none :=
      List.findSome?_eq_none_iff.mpr hall
    rw [this]
    rfl

/-- C4 witness: a text with no qualifying block yields no URL. -/
theorem claim_C4_witness :
    parse_submission_txt_for_annual_html "1" "2" (some "no blocks here") = none :=
  claim_C4_tier3_first_qualifying_block.2.2 "1" "2" "no blocks here" (by decide)

/-! ### Facts about the ASCII case maps -/

theorem toNat_char_ofNat (n : Nat) (h : n < 55296) : (Char.ofNat n).toNat = n := by
  have hv : n.isValidChar := Or.inl h
  unfold Char.ofNat
  rw [dif_pos hv]
  rfl

theorem char_eq_iff_toNat (c d : Char) : c = d ↔ c.toNat = d.toNat :=
  ⟨fun h => h ▸ rfl, fun h => Char.ext (UInt32.ext h)⟩

/-- `asciiLower` moves nothing onto a character outside both ASCII
letter ranges. -/
theorem asciiLower_eq_iff (c d : Char)
    (hd1 : ¬(97 ≤ d.toNat ∧ d.toNat ≤ 122)) (hd2 : ¬(65 ≤ d.toNat ∧ d.toNat ≤ 90)) :
    asciiLower c = d ↔ c = d := by
  unfold asciiLower
  by_cases h : 'A' ≤ c ∧ c ≤ 'Z'
  · rw [if_pos h]
    have hc : 65 ≤ c.toNat ∧ c.toNat ≤ 90 := h
    have hv : (Char.ofNat (c.toNat + 32)).toNat = c.toNat + 32 := toNat_char_ofNat _ (by omega)
    rw [char_eq_iff_toNat, char_eq_iff_toNat, hv]
    constructor
    · intro he
      exact absurd ⟨by omega, by omega⟩ hd1
    · intro he
      exact absurd ⟨by omega, by omega⟩ hd2
  · rw [if_neg h]

/-- `asciiUpper` moves nothing onto a character outside both ASCII
letter ranges. -/
theorem asciiUpper_eq_iff (c d : Char)
    (hd1 : ¬(65 ≤ d.toNat ∧ d.toNat ≤ 90)) (hd2 : ¬(97 ≤ d.toNat ∧ d.toNat ≤ 122)) :
    asciiUpper c = d ↔ c = d := by
  unfold asciiUpper
  by_cases h : 'a' ≤ c ∧ c ≤ 'z'
  · rw [if_pos h]
    have hc : 97 ≤ c.toNat ∧ c.toNat ≤ 122 := h
    have hv : (Char.ofNat (c.toNat - 32)).toNat = c.toNat - 32 := toNat_char_ofNat _ (by omega)
    rw [char_eq_iff_toNat, char_eq_iff_toNat, hv]
    constructor
    · intro he
      exact absurd ⟨by omega, by omega⟩ hd1
    · intro he
      exact absurd ⟨by omega, by omega⟩ hd2
  · rw [if_neg h]

/-! ### The final path component of a URL or filename -/

/-- The maximal suffix not containing `/`. -/
def lastComponent (l : List Char) : List Char :=
  (l.reverse.takeWhile (fun c => c != '/')).reverse

theorem asciiLower_slash_pred :
    (fun c => asciiLower c != '/') = (fun c : Char => c != '/') := by
  funext c
  by_cases hc : c = '/'
  · subst hc
    rfl
  · have h2 : asciiLower c ≠ '/' := fun he =>
      hc ((asciiLower_eq_iff c '/' (by decide) (by decide)).mp he)
    rw [bne_iff_ne.mpr h2, bne_iff_ne.mpr hc]

theorem lowerL_lastComponent (l : List Char) :
    lowerL (lastComponent l) = lastComponent (lowerL l) := by
  unfold lastComponent lowerL
  rw [← List.map_reverse, List.takeWhile_map, List.map_reverse]
  have : ((fun c => c != '/') ∘ asciiLower) = (fun c : Char => c != '/') := by
    funext c
    exact congrFun asciiLower_slash_pred c
  rw [this]

theorem isPrefixOf_takeWhile (p : Char → Bool) :
    ∀ (pat l : List Char), pat.isPrefixOf l = true → (∀ c ∈ pat, p c = true) →
      pat.isPrefixOf (l.takeWhile p) = true := by
  intro pat
  induction pat with
  | nil =>
    intro l _ _
    cases List.takeWhile p l <;> rfl
  | cons x xs ih =>
    intro l hpre hall
    cases l with
    | nil => exact absurd hpre (by simp [List.isPrefixOf])
    | cons y ys =>
      simp only [List.isPrefixOf, Bool.and_eq_true, beq_iff_eq] at hpre
      rcases hpre with ⟨hxy, hrest⟩
      have hpx : p y = true := by
        rw [← hxy]
        exact hall x (by simp)
      rw [List.takeWhile_cons, hpx]
      simp only [List.isPrefixOf, Bool.and_eq_true, beq_iff_eq]
      exact ⟨hxy, ih ys hrest (fun c hc => hall c (by simp [hc]))⟩

theorem isSuffixOf_lastComponent (pat l : List Char)
    (hs : List.isSuffixOf pat l = true) (hall : ∀ c ∈ pat, (c != '/') = true) :
    List.isSuffixOf pat (lastComponent l) = true := by
  unfold List.isSuffixOf at hs ⊢
  unfold lastComponent
  rw [List.reverse_reverse]
  exact isPrefixOf_takeWhile _ _ _ hs
    (fun c hc => hall c (List.mem_reverse.mp hc))

/-- An HTML-extension name keeps its HTML extension on the final path
component. -/
theorem htmlNameCI_lastComponent (n : List Char) (h : htmlNameCI n = true) :
    htmlNameCI (lastComponent n) = true := by
  unfold htmlNameCI endsSub at h ⊢
  rw [lowerL_lastComponent]
  have h' : List.isSuffixOf ".htm".data (lowerL n) = true
      ∨ List.isSuffixOf ".html".data (lowerL n) = true := by
    simpa using h
  rcases h' with h1 | h1
  · have := isSuffixOf_lastComponent _ _ h1 (by decide)
    simp [this]
  · have := isSuffixOf_lastComponent _ _ h1 (by decide)
    simp [this]

/-! ### The three-tier resolver `pick_best_annual_html` (source lines 200-215) -/

/-- Per-candidate network environment: the directory-listing names that
`_index_json_items` (source lines 152-158) would return — already `[]`
when `index.json` cannot be fetched — and the `get_text` result for the
master `.txt`. -/
structure FilingEnv where
  items : List String
  bundleTxt : Option String

/-- Result of `pick_best_annual_html` together with which fallback tiers
ran: `listingFetched` records a call into `pick_html_from_index_json`
(tier 2, which fetches `index.json`), `bundleFetched` a call into
`parse_submission_txt_for_annual_html` (tier 3, which fetches the master
`.txt`). -/
structure ResolveTrace where
  result : Option String
  listingFetched : Bool
  bundleFetched : Bool
deriving DecidableEq

/-- Translation of `pick_best_annual_html`; `primary_doc` is the declared
primary document name, with `""` standing for an absent value (`None` and
`""` are both falsy in `if primary_doc:`). -/
def pick_best_annual_html (cik acc : String) (primary_doc : String) (env : FilingEnv) :
    ResolveTrace :=
  if primary_doc ≠ "" ∧ htmlNameCI primary_doc.data = true
      ∧ annualTokenCI primary_doc.data = true then
    ⟨some (archPrefix cik acc ++ primary_doc), false, false⟩
  else
    match pick_html_from_index_json cik acc env.items with
    | some url =>
      if endsSub "/index.html".data url.data = false then ⟨some url, true, false⟩
      else ⟨parse_submission_txt_for_annual_html cik acc env.bundleTxt, true, true⟩
    | none => ⟨parse_submission_txt_for_annual_html cik acc env.bundleTxt, true, true⟩

/-- C1: whenever the declared primary document name ends in an HTML
extension and carries a filing-type token, the resolver returns the URL
built from the declared name and invokes neither the directory-listing
fetch (tier 2) nor the legacy-bundle parse (tier 3). -/
theorem claim_C1_tier1_short_circuits (cik acc p : String) (env : FilingEnv)
    (hhtml : htmlNameCI p.data = true) (htok : annualTokenCI p.data = true) :
    pick_best_annual_html cik acc p env
      = ⟨some (archPrefix cik acc ++ p), false, false⟩ := by
  have hne : p ≠ "" := by
    intro h
    subst h
    exact (by decide : htmlNameCI "".data ≠ true) hhtml
  unfold pick_best_annual_html
  rw [if_pos ⟨hne, hhtml, htok⟩]

/-- C1 witness: a concrete candidate whose declared name qualifies. -/
theorem claim_C1_witness :
    pick_best_annual_html "320193" "000032019324000123" "aapl-10k_2023.htm"
        ⟨["index.html"], none⟩
      = ⟨some "https://www.sec.gov/Archives/edgar/data/320193/000032019324000123/aapl-10k_2023.htm",
          false, false⟩ := by
  rw [claim_C1_tier1_short_circuits "320193" "000032019324000123" "aapl-10k_2023.htm"
    ⟨["index.html"], none⟩ (by decide) (by decide)]
  decide

/-! ### C10: shape of every URL the resolver can return -/

theorem pick_html_name_mem_filter (items : List String) (nm : String)
    (h : pick_html_name items = some nm) :
    nm ∈ items ∧ htmlNameCI nm.data = true := by
  unfold pick_html_name at h
  rcases hl : items.filter (fun nm => htmlNameCI nm.data) with _ | ⟨hh, t⟩ <;> rw [hl] at h
  · exact Option.noConfusion h
  · have hnm : nm = maxByScore hh t := (Option.some.injEq _ _).mp h.symm
    have hmem : maxByScore hh t ∈ hh :: t := by
      rcases (maxByScore_spec hh t).1 with h1 | h1
      · simp [h1]
      · simp [h1]
    have hfil : nm ∈ items.filter (fun nm => htmlNameCI nm.data) := by
      rw [hl, hnm]
      exact hmem
    have := List.mem_filter.mp hfil
    exact ⟨this.1, this.2⟩

theorem scanBlocksName_html (bs : List (List Char)) (fn : List Char)
    (h : scanBlocksName bs = some fn) : htmlNameCI fn = true := by
  induction bs with
  | nil => exact Option.noConfusion h
  | cons b bs ih =>
    cases hty : tagCapture "<TYPE>".data b with
    | none =>
      rw [scanBlocksName, hty] at h
      exact ih h
    | some ty =>
      cases hfn : tagCapture "<FILENAME>".data b with
      | none =>
        rw [scanBlocksName, hty, hfn] at h
        exact ih h
      | some fn2 =>
        rw [scanBlocksName, hty, hfn] at h
        dsimp only at h
        by_cases hcond : upperL ty ∈ annualTypes ∧ htmlNameCI fn2 = true
        · rw [if_pos hcond] at h
          have : fn2 = fn := (Option.some.injEq _ _).mp h
          rw [← this]
          exact hcond.2
        · rw [if_neg hcond] at h
          exact ih h

/-- An HTML-extension suffix forces a nonempty name. -/
theorem htmlNameCI_ne_nil (n : List Char) (h : htmlNameCI n = true) : n ≠ [] := by
  intro hn
  subst hn
  exact (by decide : htmlNameCI ([] : List Char) ≠ true) h

/-- C10: every URL the resolver returns, from any tier, is the archive
folder prefix for the candidate followed by a nonempty filename whose
final path component ends in ".htm" or ".html" case-insensitively. -/
theorem claim_C10_resolved_url_shape (cik acc p : String) (env : FilingEnv) (url : String)
    (h : (pick_best_annual_html cik acc p env).result = some url) :
    ∃ fname : String, url = archPrefix cik acc ++ fname ∧ fname.data ≠ []
      ∧ htmlNameCI fname.data = true ∧ htmlNameCI (lastComponent fname.data) = true := by
  unfold pick_best_annual_html at h
  by_cases h1 : p ≠ "" ∧ htmlNameCI p.data = true ∧ annualTokenCI p.data = true
  · rw [if_pos h1] at h
    have hurl : url = archPrefix cik acc ++ p := ((Option.some.injEq _ _).mp h).symm
    exact ⟨p, hurl, htmlNameCI_ne_nil _ h1.2.1, h1.2.1,
      htmlNameCI_lastComponent _ h1.2.1⟩
  · rw [if_neg h1] at h
    have tier3 : ∀ r : Option String,
        parse_submission_txt_for_annual_html cik acc r = some url →
        ∃ fname : String, url = archPrefix cik acc ++ fname ∧ fname.data ≠ []
          ∧ htmlNameCI fname.data = true ∧ htmlNameCI (lastComponent fname.data) = true := by
      intro r hr
      cases r with
      | none => exact Option.noConfusion hr
      | some t =>
        rw [parse_submission_txt_for_annual_html] at hr
        by_cases ht : t = ""
        · rw [if_pos ht] at hr
          exact Option.noConfusion hr
        · rw [if_neg ht, scanBlocksUrl_eq] at hr
          cases hscan : scanBlocksName (docBlocks t.data) with
          | none =>
            rw [hscan] at hr
            exact Option.noConfusion hr
          | some fn =>
            rw [hscan] at hr
            have hurl : url = archPrefix cik acc ++ String.mk fn :=
              ((Option.some.injEq _ _).mp hr).symm
            have hhtml : htmlNameCI fn = true := scanBlocksName_html _ _ hscan
            exact ⟨String.mk fn, hurl, htmlNameCI_ne_nil _ hhtml, hhtml,
              htmlNameCI_lastComponent _ hhtml⟩
    cases hpick : pick_html_from_index_json cik acc env.items with
    | none =>
      rw [hpick] at h
      exact tier3 env.bundleTxt h
    | some u2 =>
      rw [hpick] at h
      dsimp only at h
      by_cases hidx : endsSub "/index.html".data u2.data = false
      · rw [if_pos hidx] at h
        dsimp only at h
        have hu2 : u2 = url := (Option.some.injEq _ _).mp h
        unfold pick_html_from_index_json at hpick
        cases hname : pick_html_name env.items with
        | none =>
          rw [hname] at hpick
          exact Option.noConfusion hpick
        | some nm =>
          rw [hname] at hpick
          have : archPrefix cik acc ++ nm = u2 := (Option.some.injEq _ _).mp hpick
          have hhtml : htmlNameCI nm.data = true := (pick_html_name_mem_filter _ _ hname).2
          exact ⟨nm, by rw [← hu2, ← this], htmlNameCI_ne_nil _ hhtml, hhtml,
            htmlNameCI_lastComponent _ hhtml⟩
      · rw [if_neg hidx] at h
        dsimp only at h
        exact tier3 env.bundleTxt h

/-- C10 witness: a tier-2 resolution on a concrete listing. -/
theorem claim_C10_witness :
    ∃ fname : String,
      "https://www.sec.gov/Archives/edgar/data/320193/0000320193/aapl-10k.htm"
        = archPrefix "320193" "0000320193" ++ fname ∧ fname.data ≠ []
      ∧ htmlNameCI fname.data = true ∧ htmlNameCI (lastComponent fname.data) = true :=
  claim_C10_resolved_url_shape "320193" "0000320193" "" ⟨["aapl-10k.htm"], none⟩
    "https://www.sec.gov/Archives/edgar/data/320193/0000320193/aapl-10k.htm" (by decide)

/-! ### Ticker → CIK (`get_cik_from_ticker`, source lines 90-108) -/

/-- One record of `company_tickers.json`: `{ticker, cik_str, title}`. -/
structure CompanyRec where
  ticker : String
  cik_str : Nat
  title : String
deriving DecidableEq

/-- The code's ticker normalization `t.upper().replace('.', '')`. -/
def normalizeTicker (t : String) : String :=
  ⟨(upperL t.data).filter (fun c => c != '.')⟩

/-- Python `str.zfill(10)` on a non-negative numeral. -/
def zfill10 (s : String) : String :=
  if s.length < 10 then ⟨List.replicate (10 - s.length) '0' ++ s.data⟩ else s

/-- Translation of `get_cik_from_ticker`, with the fetched identifier
table passed in, in the iteration order of `data.values()`; `none` models
the `(None, None)` result (empty/failed table or no match), and the first
matching record wins as in the `for`/`return` loop. -/
def get_cik_from_ticker (table : List CompanyRec) (ticker : String) :
    Option (String × String) :=
  match table.find? (fun company => normalizeTicker company.ticker == normalizeTicker ticker) with
  | some c => some (zfill10 (Nat.repr c.cik_str), c.title)
  | none => none

/-- Canonical form per the spec's words: delete the punctuation character
(the period, as in the spec's own "BRK.B" example), then case-fold — the
opposite composition order from the code. -/
def specCanonTicker (t : String) : String :=
  ⟨upperL (t.data.filter (fun c => c != '.'))⟩

theorem asciiUpper_dot_pred :
    ((fun c : Char => c != '.') ∘ asciiUpper) = (fun c : Char => c != '.') := by
  funext c
  by_cases hc : c = '.'
  · subst hc
    rfl
  · have h2 : asciiUpper c ≠ '.' := fun he =>
      hc ((asciiUpper_eq_iff c '.' (by decide) (by decide)).mp he)
    show (asciiUpper c != '.') = (c != '.')
    rw [bne_iff_ne.mpr h2, bne_iff_ne.mpr hc]

theorem specCanon_eq_normalize (t : String) : specCanonTicker t = normalizeTicker t := by
  unfold specCanonTicker normalizeTicker upperL
  congr 1
  rw [List.filter_map, asciiUpper_dot_pred]

/-- C8: ticker matching is a case-insensitive, punctuation-normalized
exact match: two ticker strings that differ only in letter case and the
punctuation the lookup normalizes (the period, as in the spec's example)
— i.e. that share the same canonical form — resolve to the same
(identifier, displayName) result on every table; in particular "BRK.B"
and "brkb" resolve to the same identifier. -/
theorem claim_C8_ticker_match_case_punct_insensitive
    (table : List CompanyRec) (t1 t2 : String)
    (h : specCanonTicker t1 = specCanonTicker t2) :
    get_cik_from_ticker table t1 = get_cik_from_ticker table t2 := by
  unfold get_cik_from_ticker
  rw [specCanon_eq_normalize, specCanon_eq_normalize] at h
  rw [h]

/-- C8 witness: "BRK.B" and "brkb" resolve identically, to Berkshire's
zero-padded identifier. -/
theorem claim_C8_witness :
    get_cik_from_ticker [⟨"BRK.B", 1067983, "BERKSHIRE HATHAWAY INC"⟩] "BRK.B"
      = get_cik_from_ticker [⟨"BRK.B", 1067983, "BERKSHIRE HATHAWAY INC"⟩] "brkb"
    ∧ get_cik_from_ticker [⟨"BRK.B", 1067983, "BERKSHIRE HATHAWAY INC"⟩] "brkb"
      = some ("0001067983", "BERKSHIRE HATHAWAY INC") :=
  ⟨claim_C8_ticker_match_case_punct_insensitive
      [⟨"BRK.B", 1067983, "BERKSHIRE HATHAWAY INC"⟩] "BRK.B" "brkb" (by decide),
    by decide⟩

/-! ### Exhibit fetching (`_download_exhibits`, source lines 366-393) -/

/-- Outcome of one `_download_exhibits` run: the files newly downloaded
(in order; the returned count is their number) and the listing handed to
`_write_clickable_index_from_items`, which the function calls
unconditionally at the end. -/
structure ExhibitRun where
  downloadedFiles : List String
  indexItems : List String
deriving DecidableEq

/-- Translation of `_download_exhibits`: `items` are the listing names
(`it.get("name","")`), `existsOnDisk` models `(dest_dir / name).exists()`,
`fetchOk` the success of `_download_binary`, and `include_exts` the
allowed extension tuple (matched as `name.lower().endswith(include_exts)`). -/
def download_exhibits (items : List String) (existsOnDisk : String → Bool)
    (fetchOk : String → Bool) (include_exts : List String) : ExhibitRun :=
  let downloaded := items.foldl (fun acc name =>
    if name = "" then acc
    else if ¬ (include_exts.any (fun e => endsSub e.data (lowerL name.data)) = true) then acc
    else if existsOnDisk name = true then acc
    else if fetchOk name = true then acc ++ [name] else acc) []
  ⟨downloaded, items⟩

/-- C7: the exhibit fetcher is idempotent — when every listed file with an
allowed extension is already present locally, a run downloads zero new
files (count 0) yet still regenerates the local index artifact from the
full current listing; the index is rebuilt on every run regardless of the
download count. -/
theorem claim_C7_exhibits_idempotent (items : List String) (existsOnDisk : String → Bool)
    (fetchOk : String → Bool) (include_exts : List String)
    (h : ∀ name ∈ items,
      include_exts.any (fun e => endsSub e.data (lowerL name.data)) = true →
      existsOnDisk name = true) :
    (download_exhibits items existsOnDisk fetchOk include_exts).downloadedFiles.length = 0
    ∧ (download_exhibits items existsOnDisk fetchOk include_exts).indexItems = items := by
  have key : ∀ (l : List String) (acc : List String),
      (∀ name ∈ l,
        include_exts.any (fun e => endsSub e.data (lowerL name.data)) = true →
        existsOnDisk name = true) →
      l.foldl (fun acc name =>
        if name = "" then acc
        else if ¬ (include_exts.any (fun e => endsSub e.data (lowerL name.data)) = true) then acc
        else if existsOnDisk name = true then acc
        else if fetchOk name = true then acc ++ [name] else acc) acc = acc := by
    intro l
    induction l with
    | nil =>
      intro acc _
      rfl
    | cons n ns ih =>
      intro acc hall
      rw [List.foldl_cons]
      have hone : (if n = "" then acc
          else if ¬ (include_exts.any (fun e => endsSub e.data (lowerL n.data)) = true) then acc
          else if existsOnDisk n = true then acc
          else if fetchOk n = true then acc ++ [n] else acc) = acc := by
        by_cases h1 : n = ""
        · rw [if_pos h1]
        · rw [if_neg h1]
          by_cases h2 : include_exts.any (fun e => endsSub e.data (lowerL n.data)) = true
          · rw [if_neg (not_not_intro h2), if_pos (hall n (by simp) h2)]
          · rw [if_pos h2]
      rw [hone]
      exact ih acc (fun m hm hext => hall m (by simp [hm]) hext)
  have hk := key items [] h
  constructor
  · show (items.foldl (fun acc name =>
        if name = "" then acc
        else if ¬ (include_exts.any (fun e => endsSub e.data (lowerL name.data)) = true) then acc
        else if existsOnDisk name = true then acc
        else if fetchOk name = true then acc ++ [name] else acc) []).length = 0
    rw [hk]
    rfl
  · rfl

/-- C7 witness: a fully present folder downloads nothing but the index is
still rebuilt from all three listed items. -/
theorem claim_C7_witness :
    (download_exhibits ["a.htm", "b.pdf", "pic.jpg"] (fun nm => nm != "pic.jpg")
        (fun _ => true) [".htm", ".html", ".txt", ".pdf"]).downloadedFiles.length = 0
    ∧ (download_exhibits ["a.htm", "b.pdf", "pic.jpg"] (fun nm => nm != "pic.jpg")
        (fun _ => true) [".htm", ".html", ".txt", ".pdf"]).indexItems
      = ["a.htm", "b.pdf", "pic.jpg"] :=
  claim_C7_exhibits_idempotent ["a.htm", "b.pdf", "pic.jpg"] (fun nm => nm != "pic.jpg")
    (fun _ => true) [".htm", ".html", ".txt", ".pdf"] (by decide)

/-! ### Filing catalog selection (`get_annual_filings_html`, source
lines 220-282) -/

/-- The `filings.recent` parallel arrays of the Submissions API feed. -/
structure RecentFeed where
  forms : List String
  accessionNumbers : List String
  filingDates : List String
  primaryDocuments : List String

/-- One selected candidate (`candidates.append(...)`, source lines
247-252), carrying its feed index `i` from the `enumerate` loop. -/
structure Cand where
  form : String
  accession : String
  filing_date : String
  primary_doc : String
  i : Nat
deriving DecidableEq

/-- `wanted_forms` (source lines 238-242). -/
def wantedForms (include_amends include_20f : Bool) : List String :=
  "10-K" :: ((if include_amends then ["10-K/A"] else [])
    ++ (if include_20f then ["20-F", "20-F/A"] else []))

/-- The candidate built from feed index `i`; `none` when one of the
parallel arrays is too short (an `IndexError` in Python, caught by the
outer `except`, which makes the whole call return `[]`). -/
def candAt (feed : RecentFeed) (i : Nat) : Option Cand :=
  match feed.accessionNumbers.get? i, feed.filingDates.get? i, feed.primaryDocuments.get? i with
  | some a, some d, some p => some ⟨feed.forms.getD i "", a, d, p, i⟩
  | _, _, _ => none

/-- Indices of feed entries whose form is wanted (the filter inside the
`enumerate` loop, source lines 245-246). -/
def wantedIdxs (feed : RecentFeed) (include_amends include_20f : Bool) : List Nat :=
  (List.range feed.forms.length).filter
    (fun i => decide (feed.forms.getD i "" ∈ wantedForms include_amends include_20f))

/-- The `candidates` list; `none` models the `IndexError` path. -/
def buildCandidates (feed : RecentFeed) (include_amends include_20f : Bool) :
    Option (List Cand) :=
  let idxs := wantedIdxs feed include_amends include_20f
  if idxs.all (fun i => (candAt feed i).isSome) then some (idxs.filterMap (candAt feed))
  else none

/-- Python string comparison `a < b`: lexicographic on code points. -/
def listCharLt : List Char → List Char → Bool
  | [], [] => false
  | [], _ :: _ => true
  | _ :: _, [] => false
  | a :: as, b :: bs => if a < b then true else if b < a then false else listCharLt as bs

/-- Python `<` on strings. -/
def pyStrLt (a b : String) : Bool := listCharLt a.data b.data

theorem listCharLt_trans : ∀ a b c : List Char,
    listCharLt a b = true → listCharLt b c = true → listCharLt a c = true := by
  intro a
  induction a with
  | nil =>
    intro b c hab hbc
    cases b with
    | nil => simp [listCharLt] at hab
    | cons y ys =>
      cases c with
      | nil => simp [listCharLt] at hbc
      | cons z zs => rfl
  | cons x xs ih =>
    intro b c hab hbc
    cases b with
    | nil => simp [listCharLt] at hab
    | cons y ys =>
      cases c with
      | nil => simp [listCharLt] at hbc
      | cons z zs =>
        rw [listCharLt] at hab hbc ⊢
        rcases lt_trichotomy x y with hxy | hxy | hxy
        · rw [if_pos hxy] at hab
          rcases lt_trichotomy y z with hyz | hyz | hyz
          · rw [if_pos (lt_trans hxy hyz)]
          · subst hyz
            rw [if_pos hxy]
          · rw [if_pos hyz, if_neg (lt_asymm hyz)] at hbc
            simp at hbc
        · subst hxy
          rw [if_neg (lt_irrefl x), if_neg (lt_irrefl x)] at hab
          rcases lt_trichotomy x z with hyz | hyz | hyz
          · rw [if_pos hyz]
          · subst hyz
            rw [if_neg (lt_irrefl x), if_neg (lt_irrefl x)] at hbc ⊢
            exact ih ys zs hab hbc
          · rw [if_neg (not_lt_of_lt hyz), if_pos hyz] at hbc
            simp at hbc
        · rw [if_neg (lt_asymm hxy), if_pos hxy] at hab
          simp at hab

theorem listCharLt_trichotomy (a : List Char) : ∀ b : List Char,
    listCharLt a b = true ∨ listCharLt b a = true ∨ a = b := by
  induction a with
  | nil =>
    intro b
    cases b with
    | nil => exact Or.inr (Or.inr rfl)
    | cons y ys => exact Or.inl rfl
  | cons x xs ih =>
    intro b
    cases b with
    | nil => exact Or.inr (Or.inl rfl)
    | cons y ys =>
      rcases lt_trichotomy x y with hxy | hxy | hxy
      · refine Or.inl ?_
        rw [listCharLt, if_pos hxy]
      · subst hxy
        rcases ih ys with h | h | h
        · refine Or.inl ?_
          rw [listCharLt, if_neg (lt_irrefl x), if_neg (lt_irrefl x)]
          exact h
        · refine Or.inr (Or.inl ?_)
          rw [listCharLt, if_neg (lt_irrefl x), if_neg (lt_irrefl x)]
          exact h
        · exact Or.inr (Or.inr (by rw [h]))
      · refine Or.inr (Or.inl ?_)
        rw [listCharLt, if_pos hxy]

theorem string_data_ext (s t : String) (h : s.data = t.data) : s = t := by
  cases s
  cases t
  exact congrArg String.mk h

theorem pyStrLt_trans (a b c : String) (h1 : pyStrLt a b = true) (h2 : pyStrLt b c = true) :
    pyStrLt a c = true :=
  listCharLt_trans a.data b.data c.data h1 h2

theorem pyStrLt_trichotomy (a b : String) :
    pyStrLt a b = true ∨ pyStrLt b a = true ∨ a = b := by
  rcases listCharLt_trichotomy a.data b.data with h | h | h
  · exact Or.inl h
  · exact Or.inr (Or.inl h)
  · exact Or.inr (Or.inr (string_data_ext a b h))

/-- Stable insertion of one candidate into a date-descending list: the
element moves past exactly the strictly more recent entries, which is the
stability guarantee of Python's `list.sort(key=..., reverse=True)`. -/
def insertByDateDesc (c : Cand) : List Cand → List Cand
  | [] => [c]
  | d :: ds =>
    if pyStrLt c.filing_date d.filing_date = true then d :: insertByDateDesc c ds
    else c :: d :: ds

/-- `candidates.sort(key=lambda d: d["filing_date"], reverse=True)`
(source line 257): a stable descending sort on the date string. -/
def sortByDateDesc (l : List Cand) : List Cand := l.foldr insertByDateDesc []

/-- The candidate-selection stage of `get_annual_filings_html` (source
lines 244-258): filter to the wanted forms, stable-sort descending by
filing date, truncate to `count`; `[]` on the exception path. -/
def getAnnualCandidates (feed : RecentFeed) (count : Nat)
    (include_amends include_20f : Bool) : List Cand :=
  match buildCandidates feed include_amends include_20f with
  | none => []
  | some cands => (sortByDateDesc cands).take count

/-- One element of the returned list (source lines 267-273). -/
structure FilingOut where
  date : String
  url : String
  accession : String
  form : String
  is_amend : Bool
deriving DecidableEq

/-- Python `accession.replace("-", "")`. -/
def removeDashes (s : String) : String := ⟨s.data.filter (fun c => c != '-')⟩

/-- The output-assembly loop of `get_annual_filings_html` (source lines
260-275), with the per-accession network environment passed in and
`cik_no_zeros` precomputed: candidates whose resolution yields no URL are
skipped, the rest carry their date/accession/form data over. -/
def assembleFilings (cikNoZeros : String) (env : String → FilingEnv) (cands : List Cand) :
    List FilingOut :=
  cands.filterMap (fun c =>
    ((pick_best_annual_html cikNoZeros (removeDashes c.accession) c.primary_doc
        (env (removeDashes c.accession))).result).map (fun url =>
      ⟨c.filing_date, url, c.accession, c.form, endsSub "/A".data c.form.data⟩))

/-- The spec's target order: strictly more recent first, feed order on
equal dates. -/
def recencyOrder (a b : Cand) : Prop :=
  pyStrLt b.filing_date a.filing_date = true
    ∨ (a.filing_date = b.filing_date ∧ a.i < b.i)

theorem perm_insertByDateDesc (c : Cand) (l : List Cand) :
    List.Perm (insertByDateDesc c l) (c :: l) := by
  induction l with
  | nil => exact List.Perm.refl _
  | cons d ds ih =>
    unfold insertByDateDesc
    by_cases h : pyStrLt c.filing_date d.filing_date = true
    · rw [if_pos h]
      exact (List.Perm.cons d ih).trans (List.Perm.swap c d ds)
    · rw [if_neg h]

theorem perm_sortByDateDesc (l : List Cand) : List.Perm (sortByDateDesc l) l := by
  induction l with
  | nil => exact List.Perm.refl _
  | cons c cs ih =>
    exact (perm_insertByDateDesc c (sortByDateDesc cs)).trans (List.Perm.cons c ih)

theorem pairwise_insertByDateDesc (c : Cand) (l : List Cand)
    (hl : l.Pairwise recencyOrder)
    (hc : ∀ d ∈ l, c.filing_date = d.filing_date → c.i < d.i) :
    (insertByDateDesc c l).Pairwise recencyOrder := by
  induction l with
  | nil => simp [insertByDateDesc]
  | cons d ds ih =>
    rw [List.pairwise_cons] at hl
    rcases hl with ⟨hd_all, hds⟩
    unfold insertByDateDesc
    by_cases h : pyStrLt c.filing_date d.filing_date = true
    · rw [if_pos h]
      rw [List.pairwise_cons]
      constructor
      · intro z hz
        rcases List.mem_cons.mp ((perm_insertByDateDesc c ds).mem_iff.mp hz) with rfl | hz2
        · exact Or.inl h
        · exact hd_all z hz2
      · exact ih hds (fun e he hde => hc e (by simp [he]) hde)
    · rw [if_neg h]
      rw [List.pairwise_cons]
      have hcd : recencyOrder c d := by
        rcases pyStrLt_trichotomy c.filing_date d.filing_date with h1 | h1 | h1
        · exact absurd h1 h
        · exact Or.inl h1
        · exact Or.inr ⟨h1, hc d (by simp) h1⟩
      refine ⟨?_, List.pairwise_cons.mpr ⟨hd_all, hds⟩⟩
      intro z hz
      rcases List.mem_cons.mp hz with rfl | hz2
      · exact hcd
      · rcases hd_all z hz2 with hzd | ⟨hzd, _⟩
        · rcases hcd with hdc | ⟨hdc, _⟩
          · exact Or.inl (pyStrLt_trans _ _ _ hzd hdc)
          · exact Or.inl (hdc ▸ hzd)
        · rcases hcd with hdc | ⟨hdc, _⟩
          · exact Or.inl (hzd ▸ hdc)
          · exact Or.inr ⟨hdc.trans hzd, hc z (by simp [hz2]) (hdc.trans hzd)⟩

theorem pairwise_sortByDateDesc (l : List Cand)
    (hidx : l.Pairwise (fun a b => a.i < b.i)) :
    (sortByDateDesc l).Pairwise recencyOrder := by
  induction l with
  | nil => simp [sortByDateDesc]
  | cons c cs ih =>
    rw [List.pairwise_cons] at hidx
    rcases hidx with ⟨hall, hcs⟩
    exact pairwise_insertByDateDesc c (sortByDateDesc cs) (ih hcs)
      (fun d hd _ => hall d ((perm_sortByDateDesc cs).mem_iff.mp hd))

theorem candAt_fields (feed : RecentFeed) (i : Nat) (c : Cand)
    (h : candAt feed i = some c) : c.i = i ∧ c.form = feed.forms.getD i "" := by
  unfold candAt at h
  cases ha : feed.accessionNumbers.get? i <;> rw [ha] at h
  · exact Option.noConfusion h
  cases hd : feed.filingDates.get? i <;> rw [hd] at h
  · exact Option.noConfusion h
  cases hp : feed.primaryDocuments.get? i <;> rw [hp] at h
  · exact Option.noConfusion h
  have := (Option.some.injEq _ _).mp h
  rw [← this]
  exact ⟨rfl, rfl⟩

theorem buildCandidates_props (feed : RecentFeed) (a20 b20 : Bool) (cs : List Cand)
    (h : buildCandidates feed a20 b20 = some cs) :
    cs.Pairwise (fun x y => x.i < y.i) ∧ ∀ c ∈ cs, c.form ∈ wantedForms a20 b20 := by
  unfold buildCandidates at h
  by_cases hall : (wantedIdxs feed a20 b20).all (fun i => (candAt feed i).isSome) = true
  · rw [if_pos hall] at h
    have hcs : cs = (wantedIdxs feed a20 b20).filterMap (candAt feed) :=
      ((Option.some.injEq _ _).mp h).symm
    subst hcs
    constructor
    · apply List.Pairwise.filterMap (candAt feed)
        (fun i j hij c hc c' hc' => ?_)
        ((List.pairwise_lt_range _).filter _)
      have h1 := (candAt_fields feed i c hc).1
      have h2 := (candAt_fields feed j c' hc').1
      omega
    · intro c hc
      rcases List.mem_filterMap.mp hc with ⟨i, hi, hci⟩
      have hm := List.mem_filter.mp hi
      have := of_decide_eq_true hm.2
      rw [(candAt_fields feed i c hci).2]
      exact this
  · rw [if_neg hall] at h
    exact Option.noConfusion h

/-- The spec's 8-matching-candidate example feed: nine entries, one of
which (`8-K`) is not an annual form; two matching entries tie on
2021-03-01. -/
def feed8 : RecentFeed :=
  ⟨["10-K", "10-K/A", "8-K", "10-K", "20-F", "10-K", "20-F/A", "10-K", "10-K"],
   ["a0", "a1", "a2", "a3", "a4", "a5", "a6", "a7", "a8"],
   ["2020-02-01", "2021-03-01", "2024-01-01", "2022-02-15", "2021-03-01",
    "2019-05-01", "2023-04-01", "2018-01-01", "2024-02-29"],
   ["d0", "d1", "d2", "d3", "d4", "d5", "d6", "d7", "d8"]⟩

/-- C5: the catalog client's candidate selection returns the feed entries
whose form is in the requested type set, in an order that is descending
by filing date with ties preserving feed order (stable sort), truncated
to the `count` most recent; on 8 dated matching candidates with
`count = 5`, exactly the 5 most recent (ties by feed order) come back.
When every selected candidate resolves to a URL, the assembled output
carries over exactly these candidates' date/accession/form data. -/
theorem claim_C5_catalog_selection :
    (∀ (feed : RecentFeed) (count : Nat) (ia i20 : Bool) (cs : List Cand),
      buildCandidates feed ia i20 = some cs →
      ∃ s : List Cand, List.Perm s cs ∧ s.Pairwise recencyOrder
        ∧ (∀ c ∈ s, c.form ∈ wantedForms ia i20)
        ∧ getAnnualCandidates feed count ia i20 = s.take count)
    ∧ getAnnualCandidates feed8 5 true true
      = [⟨"10-K", "a8", "2024-02-29", "d8", 8⟩,
         ⟨"20-F/A", "a6", "2023-04-01", "d6", 6⟩,
         ⟨"10-K", "a3", "2022-02-15", "d3", 3⟩,
         ⟨"10-K/A", "a1", "2021-03-01", "d1", 1⟩,
         ⟨"20-F", "a4", "2021-03-01", "d4", 4⟩]
    ∧ (∀ (cikNZ : String) (env : String → FilingEnv) (cands : List Cand),
      (∀ c ∈ cands, (pick_best_annual_html cikNZ (removeDashes c.accession) c.primary_doc
          (env (removeDashes c.accession))).result.isSome = true) →
      (assembleFilings cikNZ env cands).map (fun o => (o.date, o.accession, o.form))
        = cands.map (fun c => (c.filing_date, c.accession, c.form))) := by
  refine ⟨?_, by decide, ?_⟩
  · intro feed count ia i20 cs h
    rcases buildCandidates_props feed ia i20 cs h with ⟨hpw, hforms⟩
    refine ⟨sortByDateDesc cs, perm_sortByDateDesc cs, pairwise_sortByDateDesc cs hpw,
      ?_, ?_⟩
    · intro c hc
      exact hforms c ((perm_sortByDateDesc cs).mem_iff.mp hc)
    · unfold getAnnualCandidates
      rw [h]
  · intro cikNZ env cands hall
    induction cands with
    | nil => rfl
    | cons c cs ih =>
      unfold assembleFilings
      have hsome := hall c (by simp)
      obtain ⟨url, hurl⟩ := Option.isSome_iff_exists.mp hsome
      rw [List.filterMap_cons]
      rw [hurl]
      simp only [Option.map_some']
      have ihr := ih (fun d hd => hall d (by simp [hd]))
      unfold assembleFilings at ihr
      rw [List.map_cons, List.map_cons, ihr]

/-- C5 witness: the example feed's eight matching candidates, permuted
into recency order and truncated to five. -/
theorem claim_C5_witness :
    ∃ s : List Cand,
      List.Perm s
        [⟨"10-K", "a0", "2020-02-01", "d0", 0⟩,
         ⟨"10-K/A", "a1", "2021-03-01", "d1", 1⟩,
         ⟨"10-K", "a3", "2022-02-15", "d3", 3⟩,
         ⟨"20-F", "a4", "2021-03-01", "d4", 4⟩,
         ⟨"10-K", "a5", "2019-05-01", "d5", 5⟩,
         ⟨"20-F/A", "a6", "2023-04-01", "d6", 6⟩,
         ⟨"10-K", "a7", "2018-01-01", "d7", 7⟩,
         ⟨"10-K", "a8", "2024-02-29", "d8", 8⟩]
      ∧ s.Pairwise recencyOrder
      ∧ (∀ c ∈ s, c.form ∈ wantedForms true true)
      ∧ getAnnualCandidates feed8 5 true true = s.take 5 :=
  claim_C5_catalog_selection.1 feed8 5 true true
    [⟨"10-K", "a0", "2020-02-01", "d0", 0⟩,
     ⟨"10-K/A", "a1", "2021-03-01", "d1", 1⟩,
     ⟨"10-K", "a3", "2022-02-15", "d3", 3⟩,
     ⟨"20-F", "a4", "2021-03-01", "d4", 4⟩,
     ⟨"10-K", "a5", "2019-05-01", "d5", 5⟩,
     ⟨"20-F/A", "a6", "2023-04-01", "d6", 6⟩,
     ⟨"10-K", "a7", "2018-01-01", "d7", 7⟩,
     ⟨"10-K", "a8", "2024-02-29", "d8", 8⟩]
    (by decide)

/-! ### Retry behaviour (`get_json` source lines 55-74, `get_text` lines
76-85, `_download_binary` lines 352-364, `_index_json_items` lines
152-158) -/

/-- Outcome of one HTTP attempt, as `get_json` classifies it: `ok` =
parsed payload returned; `retryStatus` = HTTP 429 or 5xx; `reqError` =
any other `RequestException` (network error, `raise_for_status`, decode
failure). -/
inductive Outcome where
  | ok
  | retryStatus
  | reqError
deriving DecidableEq

/-- Observable fetch behaviour: number of HTTP attempts made, the sleeps
performed between them (in order), and whether a payload came back. -/
structure FetchTrace where
  attempts : Nat
  sleeps : List ℚ
  succeeded : Bool
deriving DecidableEq

/-- The retry loop of `get_json` over the attempt numbers still to run
(`for attempt in range(1, max_retries + 1)`): on `retryStatus` it sleeps
`backoff * attempt` and continues (falling off the loop end returns
`None`); on another request error it returns `None` at once on the final
attempt and otherwise sleeps and continues; on success it returns the
payload. -/
def getJsonLoop (resp : Nat → Outcome) (backoff : ℚ) : List Nat → FetchTrace
  | [] => ⟨0, [], false⟩
  | k :: ks =>
    match resp k with
    | .ok => ⟨1, [], true⟩
    | .retryStatus =>
      ⟨(getJsonLoop resp backoff ks).attempts + 1,
        backoff * (k : ℚ) :: (getJsonLoop resp backoff ks).sleeps,
        (getJsonLoop resp backoff ks).succeeded⟩
    | .reqError =>
      if ks.isEmpty then ⟨1, [], false⟩
      else
        ⟨(getJsonLoop resp backoff ks).attempts + 1,
          backoff * (k : ℚ) :: (getJsonLoop resp backoff ks).sleeps,
          (getJsonLoop resp backoff ks).succeeded⟩

/-- The fetch behaviour of `get_json(url, max_retries, backoff)`. -/
def get_json_trace (resp : Nat → Outcome) (max_retries : Nat) (backoff : ℚ) : FetchTrace :=
  getJsonLoop resp backoff ((List.range max_retries).map (fun i => i + 1))

/-- `get_text`: one single request, every failure mapped to `None`,
no retry, no sleep. -/
def get_text_trace (resp : Outcome) : FetchTrace :=
  ⟨1, [], match resp with | .ok => true | _ => false⟩

/-- `_download_binary`: one single request, failures logged and mapped to
`False`, no retry, no sleep. -/
def download_binary_trace (resp : Outcome) : FetchTrace :=
  ⟨1, [], match resp with | .ok => true | _ => false⟩

/-- `_index_json_items` fetches the directory listing `index.json`
through `get_json` with the default parameters (source line 155), so its
network behaviour is `get_json`'s. -/
def index_json_items_trace (resp : Nat → Outcome) : FetchTrace :=
  get_json_trace resp 3 1

theorem getJsonLoop_step (resp : Nat → Outcome) (backoff : ℚ) (k : Nat) (ks : List Nat) :
    getJsonLoop resp backoff (k :: ks)
      = match resp k with
        | .ok => ⟨1, [], true⟩
        | .retryStatus =>
          ⟨(getJsonLoop resp backoff ks).attempts + 1,
            backoff * (k : ℚ) :: (getJsonLoop resp backoff ks).sleeps,
            (getJsonLoop resp backoff ks).succeeded⟩
        | .reqError =>
          if ks.isEmpty then ⟨1, [], false⟩
          else
            ⟨(getJsonLoop resp backoff ks).attempts + 1,
              backoff * (k : ℚ) :: (getJsonLoop resp backoff ks).sleeps,
              (getJsonLoop resp backoff ks).succeeded⟩ := rfl

theorem getJsonLoop_attempts_le (resp : Nat → Outcome) (backoff : ℚ) :
    ∀ ks : List Nat, (getJsonLoop resp backoff ks).attempts ≤ ks.length := by
  intro ks
  induction ks with
  | nil => exact Nat.le_refl 0
  | cons k ks ih =>
    rw [getJsonLoop_step]
    cases hr : resp k with
    | ok =>
      dsimp only
      rw [List.length_cons]
      omega
    | retryStatus =>
      dsimp only
      rw [List.length_cons]
      omega
    | reqError =>
      by_cases hks : ks.isEmpty
      · rw [if_pos hks]
        dsimp only
        rw [List.length_cons]
        omega
      · rw [if_neg hks]
        dsimp only
        rw [List.length_cons]
        omega

theorem getJsonLoop_sleeps (resp : Nat → Outcome) (backoff : ℚ) :
    ∀ ks : List Nat, (getJsonLoop resp backoff ks).sleeps
      = (ks.take (getJsonLoop resp backoff ks).sleeps.length).map
          (fun k : Nat => backoff * (k : ℚ)) := by
  intro ks
  induction ks with
  | nil => rfl
  | cons k ks ih =>
    rw [getJsonLoop_step]
    cases hr : resp k with
    | ok => rfl
    | retryStatus =>
      dsimp only
      rw [List.length_cons, List.take_succ_cons, List.map_cons, ← ih]
    | reqError =>
      by_cases hks : ks.isEmpty
      · rw [if_pos hks]
        rfl
      · rw [if_neg hks]
        dsimp only
        rw [List.length_cons, List.take_succ_cons, List.map_cons, ← ih]

theorem get_json_sleeps_linear (resp : Nat → Outcome) (m : Nat) (b : ℚ) :
    (get_json_trace resp m b).sleeps
      = (List.range (get_json_trace resp m b).sleeps.length).map
          (fun i : Nat => b * ((i + 1 : Nat) : ℚ)) := by
  unfold get_json_trace
  have h := getJsonLoop_sleeps resp b ((List.range m).map (fun i => i + 1))
  rw [← List.map_take, List.take_range, List.map_map] at h
  rw [h, List.length_map, List.length_range]
  rfl

/-- C9 counterexample: the directory-listing fetch *is* retried — with the
first attempt answering HTTP 429 and the second succeeding,
`_index_json_items` makes two HTTP attempts, not one. -/
theorem claim_C9_counterexample :
    (index_json_items_trace
        (fun k => if k = 1 then Outcome.retryStatus else Outcome.ok)).attempts = 2 := by
  decide

/-- C9 (amended): the bounded linear-backoff retry loop lives only in the
shared JSON getter: `get_json` makes at most `max_retries` attempts and
its sleep sequence is exactly `backoff·1, backoff·2, …` for as many
retries as it performed; the identifier-table, filing-catalog *and*
directory-listing fetches all go through it (`_index_json_items` calls
`get_json`), while the legacy-bundle text fetch (`get_text`) and the
document/exhibit download (`_download_binary`) always make exactly one
attempt and never sleep, whatever the outcome. -/
theorem claim_C9_retry_only_in_json_getter (resp : Nat → Outcome) (r1 : Outcome)
    (max_retries : Nat) (backoff : ℚ) :
    (get_json_trace resp max_retries backoff).attempts ≤ max_retries
    ∧ (get_json_trace resp max_retries backoff).sleeps
      = (List.range (get_json_trace resp max_retries backoff).sleeps.length).map
          (fun i : Nat => backoff * ((i + 1 : Nat) : ℚ))
    ∧ index_json_items_trace resp = get_json_trace resp 3 1
    ∧ (get_text_trace r1).attempts = 1 ∧ (get_text_trace r1).sleeps = []
    ∧ (download_binary_trace r1).attempts = 1 ∧ (download_binary_trace r1).sleeps = [] := by
  refine ⟨?_, get_json_sleeps_linear resp max_retries backoff, rfl, rfl, rfl, rfl, rfl⟩
  have h := getJsonLoop_attempts_le resp backoff ((List.range max_retries).map (fun i => i + 1))
  rw [List.length_map, List.length_range] at h
  exact h

end EdgarSpec

